import Mathlib

/-!
Verification development for the Baseline cross-source signal aggregation and
divisiveness ranking engine.

The JavaScript source is shallowly embedded: titles are `String`, JS numbers
are `ℚ` (exact arithmetic; floating-point rounding is out of scope), the
insertion-ordered JS `Map` is a `List (String × Candidate)` with `Map.set`
replacing in place, JS arrays are `List`, and the ES2019 stable
`Array.prototype.sort` is `List.insertionSort` (which is stable).  The host
primitive `Math.log10` is passed as an explicit function parameter `log10`;
theorems that need it assume only that it is nonnegative on `[1, ∞)`, which
the real base-10 logarithm satisfies.
-/

namespace Baseline

/-- JS `\s` whitespace class restricted to the usual ASCII whitespace. -/
def isWsChar (c : Char) : Bool :=
  c = ' ' || c = '\t' || c = '\n' || c = '\r'

/-- Characters kept by the regex replace `[^a-z0-9\s]` → `''` (after lowering). -/
def keepChar (c : Char) : Bool :=
  (decide ('a' ≤ c) && decide (c ≤ 'z')) ||
  (decide ('0' ≤ c) && decide (c ≤ '9')) ||
  isWsChar c

/-- Drop leading and trailing whitespace, JS `String.prototype.trim`. -/
def trimChars (l : List Char) : List Char :=
  ((l.dropWhile isWsChar).reverse.dropWhile isWsChar).reverse

/-- Embeds `normalizeTitle` of the topic selector:
`title.toLowerCase().replace(/[^a-z0-9\s]/g, '').trim()`. -/
def normalizeTitle (t : String) : String :=
  (trimChars ((t.toList.map Char.toLower).filter keepChar)).asString

/-- JS `key.split(' ')`: split on every single space, keeping empty pieces. -/
def splitSpacesAux : List Char → List Char → List String
  | [], acc => [acc.reverse.asString]
  | c :: cs, acc =>
      if c = ' ' then acc.reverse.asString :: splitSpacesAux cs []
      else splitSpacesAux cs (c :: acc)

/-- JS `key.split(' ')` on a `String`. -/
def splitSpaces (s : String) : List String :=
  splitSpacesAux s.toList []

/-- Embeds `new Set(key.split(' ').filter(w => w.length > 3))`: the distinct
words of a key that are longer than 3 characters. -/
def tokens (s : String) : List String :=
  ((splitSpaces s).filter (fun w => 3 < w.length)).dedup

/-- Embeds the overlap computation of `findBestMatch`:
`shared / Math.max(keyWords.size, existingWords.size, 1)` where `shared`
counts the words of `kw` present in `ew`. -/
def overlapQ (kw ew : List String) : ℚ :=
  ((kw.filter (fun w => w ∈ ew)).length : ℚ) /
    ((max (max kw.length ew.length) 1 : ℕ) : ℚ)

/-- Overlap of a tokenized new key against a raw pool key. -/
def ovKey (kw : List String) (k : String) : ℚ :=
  overlapQ kw (tokens k)

/-- One Reddit topic cluster as produced by the Reddit scraper's
`clusterPosts` and consumed by `mergeSignals`. -/
structure RedditCandidate where
  title : String
  divisiveness_score : ℚ
  total_comments : ℚ
  subreddits : List String
deriving DecidableEq

/-- One Google Trends candidate consumed by `mergeSignals`. -/
structure GoogleTrend where
  title : String
  score : ℚ
deriving DecidableEq

/-- One YouTube candidate consumed by `mergeSignals`. -/
structure YoutubeCandidate where
  title : String
  divisiveness_score : ℚ
deriving DecidableEq

/-- The merged-candidate record built by `mergeSignals` (JS object stored as a
`Map` value), including the `composite_score` added by the final scoring map. -/
structure Candidate where
  title : String
  reddit_divisiveness : ℚ
  reddit_comments : ℚ
  reddit_subreddits : List String
  google_score : ℚ
  youtube_divisiveness : ℚ
  sources : List String
  composite_score : ℚ := 0
deriving DecidableEq

/-- The candidate pool: a JS `Map` in insertion order. -/
abbrev Pool := List (String × Candidate)

/-- JS `Map.prototype.set`: replace the value in place if the key exists
(keeping its position), otherwise append a new entry. -/
def mapSet : Pool → String → Candidate → Pool
  | [], k, v => [(k, v)]
  | (k0, v0) :: rest, k, v =>
      if k0 = k then (k, v) :: rest else (k0, v0) :: mapSet rest k v

/-- Mutate the candidate stored at position `i` of the pool (the JS code
mutates the object returned by `findBestMatch`, which lives in the map). -/
def modifyAt : Pool → ℕ → (Candidate → Candidate) → Pool
  | [], _, _ => []
  | (k, v) :: rest, 0, f => (k, f v) :: rest
  | (k, v) :: rest, n + 1, f => (k, v) :: modifyAt rest n f

/-- The accumulator loop of `findBestMatch` over the pool's keys, tracking the
position `i` of the entry under examination, the best matching position so
far and the best overlap so far (`bestOverlap` starts at 0; an entry wins when
`overlap > 0.4 && overlap > bestOverlap`). -/
def findBestAux (kw : List String) : List String → ℕ → Option ℕ → ℚ → Option ℕ
  | [], _, best, _ => best
  | k :: rest, i, best, bestOv =>
      if 2/5 < ovKey kw k ∧ bestOv < ovKey kw k then
        findBestAux kw rest (i + 1) (some i) (ovKey kw k)
      else
        findBestAux kw rest (i + 1) best bestOv

/-- Position in the pool of the entry `findBestMatch` returns, if any. -/
def findBestIdx (key : String) (keys : List String) : Option ℕ :=
  findBestAux (tokens key) keys 0 none 0

/-- Embeds `findBestMatch(key, map)`: the merged candidate of the best
fuzzy-matching pool entry, or none. -/
def findBestMatch (key : String) (pool : Pool) : Option Candidate :=
  (findBestIdx key (pool.map Prod.fst)).bind fun i => (pool.get? i).map Prod.snd

/-- The fresh merged record created for a Reddit candidate. -/
def redditRec (r : RedditCandidate) : Candidate :=
  { title := r.title
    reddit_divisiveness := r.divisiveness_score
    reddit_comments := r.total_comments
    reddit_subreddits := r.subreddits
    google_score := 0
    youtube_divisiveness := 0
    sources := ["reddit"] }

/-- The fresh merged record created for an unmatched Google Trends candidate. -/
def googleRec (g : GoogleTrend) : Candidate :=
  { title := g.title
    reddit_divisiveness := 0
    reddit_comments := 0
    reddit_subreddits := []
    google_score := g.score / 100
    youtube_divisiveness := 0
    sources := ["google_trends"] }

/-- The fresh merged record created for an unmatched YouTube candidate. -/
def youtubeRec (y : YoutubeCandidate) : Candidate :=
  { title := y.title
    reddit_divisiveness := 0
    reddit_comments := 0
    reddit_subreddits := []
    google_score := 0
    youtube_divisiveness := y.divisiveness_score
    sources := ["youtube"] }

/-- The Reddit loop body of `mergeSignals`: `candidates.set(key, {...})`. -/
def addReddit (pool : Pool) (r : RedditCandidate) : Pool :=
  mapSet pool (normalizeTitle r.title) (redditRec r)

/-- The Google Trends loop body of `mergeSignals`: fold into the fuzzy match
if one exists, else insert a fresh google-only record. -/
def addGoogle (pool : Pool) (g : GoogleTrend) : Pool :=
  match findBestIdx (normalizeTitle g.title) (pool.map Prod.fst) with
  | some i =>
      modifyAt pool i fun c =>
        { c with google_score := g.score / 100
                 sources := c.sources ++ ["google_trends"] }
  | none => mapSet pool (normalizeTitle g.title) (googleRec g)

/-- The YouTube loop body of `mergeSignals`. -/
def addYoutube (pool : Pool) (y : YoutubeCandidate) : Pool :=
  match findBestIdx (normalizeTitle y.title) (pool.map Prod.fst) with
  | some i =>
      modifyAt pool i fun c =>
        { c with youtube_divisiveness := y.divisiveness_score
                 sources := c.sources ++ ["youtube"] }
  | none => mapSet pool (normalizeTitle y.title) (youtubeRec y)

/-- The candidate pool after the three source folds of `mergeSignals`. -/
def buildPool (rs : List RedditCandidate) (gs : List GoogleTrend)
    (ys : List YoutubeCandidate) : Pool :=
  (ys.foldl addYoutube (gs.foldl addGoogle (rs.foldl addReddit [])))

/-- `Math.min(c.sources.length / 3, 1)`, the cross-platform presence term. -/
def multiPlatform (c : Candidate) : ℚ :=
  min ((c.sources.length : ℚ) / 3) 1

/-- The composite score of the first topic-selector version:
`reddit * 0.45 + youtube * 0.25 + google * 0.15 + multiPlatform * 0.15`. -/
def compositeV1 (c : Candidate) : ℚ :=
  c.reddit_divisiveness * 0.45 + c.youtube_divisiveness * 0.25 +
    c.google_score * 0.15 + multiPlatform c * 0.15

/-- `Math.min(c.reddit_comments / 5000, 1)`, the engagement-volume term of the
second topic-selector version. -/
def engagementScore (c : Candidate) : ℚ :=
  min (c.reddit_comments / 5000) 1

/-- The composite score of the second topic-selector version:
`engagement * 0.35 + google * 0.25 + multiPlatform * 0.20 + reddit * 0.20`
(the YouTube divisiveness signal does not appear). -/
def compositeV2 (c : Candidate) : ℚ :=
  engagementScore c * 0.35 + c.google_score * 0.25 +
    multiPlatform c * 0.20 + c.reddit_divisiveness * 0.20

/-- The ordering used by `scored.sort((a, b) => b.composite_score -
a.composite_score)`: descending composite score. -/
abbrev rankLe (a b : Candidate) : Prop :=
  b.composite_score ≤ a.composite_score

instance : IsTotal Candidate rankLe :=
  ⟨fun a b => le_total b.composite_score a.composite_score⟩

instance : IsTrans Candidate rankLe :=
  ⟨fun _ _ _ hab hbc => le_trans hbc hab⟩

/-- The scored pool of version 1, before sorting: `Array.from(values()).map`. -/
def scoredV1 (rs : List RedditCandidate) (gs : List GoogleTrend)
    (ys : List YoutubeCandidate) : List Candidate :=
  (buildPool rs gs ys).map fun p => { p.2 with composite_score := compositeV1 p.2 }

/-- The scored pool of version 2, before sorting. -/
def scoredV2 (rs : List RedditCandidate) (gs : List GoogleTrend)
    (ys : List YoutubeCandidate) : List Candidate :=
  (buildPool rs gs ys).map fun p => { p.2 with composite_score := compositeV2 p.2 }

/-- Embeds `mergeSignals` of the first topic-selector version: fold the three
sources, score, sort descending (stable) and keep the top 20. -/
def mergeSignalsV1 (rs : List RedditCandidate) (gs : List GoogleTrend)
    (ys : List YoutubeCandidate) : List Candidate :=
  ((scoredV1 rs gs ys).insertionSort rankLe).take 20

/-- Embeds `mergeSignals` of the second topic-selector version. -/
def mergeSignalsV2 (rs : List RedditCandidate) (gs : List GoogleTrend)
    (ys : List YoutubeCandidate) : List Candidate :=
  ((scoredV2 rs gs ys).insertionSort rankLe).take 20

/-- Inserting `a` in front of its insertion point keeps it before any element
`b` of the list that `a` ranks at-least-as-high as. -/
lemma pair_sublist_orderedInsert {s : List Candidate} {a b : Candidate}
    (hb : b ∈ s) (h : rankLe a b) : List.Sublist [a, b] (s.orderedInsert rankLe a) := by
  induction s with
  | nil => cases hb
  | cons y ys ih =>
      by_cases hr : rankLe a y
      · simp only [List.orderedInsert, if_pos hr]
        exact List.Sublist.cons₂ a (List.singleton_sublist.mpr hb)
      · simp only [List.orderedInsert, if_neg hr]
        rcases List.mem_cons.mp hb with rfl | hb'
        · exact absurd h hr
        · exact List.Sublist.cons y (ih hb')

/-- Stability of the embedded sort: a pair in input order whose first element
ranks at-least-as-high stays in that order in the sorted output. -/
lemma pair_sublist_insertionSort {l : List Candidate} {a b : Candidate}
    (hab : List.Sublist [a, b] l) (h : rankLe a b) :
    List.Sublist [a, b] (l.insertionSort rankLe) := by
  induction l with
  | nil => simp at hab
  | cons x xs ih =>
      cases hab with
      | cons _ hab' =>
          simp only [List.insertionSort]
          exact (ih hab').trans (List.sublist_orderedInsert x _)
      | cons₂ _ hab' =>
          have hb : b ∈ xs.insertionSort rankLe :=
            (List.mem_insertionSort rankLe).mpr (List.singleton_sublist.mp hab')
          simpa [List.insertionSort] using pair_sublist_orderedInsert hb h

/-- A raw Reddit post as consumed by `scoreDivisiveness`; `none` models a
missing numeric field, which JS destructuring replaces by the stated default. -/
structure RedditPost where
  upvote_ratio : Option ℚ
  num_comments : Option ℚ
  score : Option ℚ
deriving DecidableEq

/-- `1 - Math.abs(upvote_ratio - 0.5) * 2`. -/
def ratioDivisiveness (r : ℚ) : ℚ :=
  1 - |r - 0.5| * 2

/-- `Math.min(Math.log10(num_comments + 1) / 4, 1)`. -/
def engagementWeight (log10 : ℚ → ℚ) (c : ℚ) : ℚ :=
  min (log10 (c + 1) / 4) 1

/-- `score > 100 ? 1 : score / 100`. -/
def scoreWeight (s : ℚ) : ℚ :=
  if 100 < s then 1 else s / 100

/-- Embeds the Reddit scraper's `scoreDivisiveness(post)`, including the
destructuring defaults `upvote_ratio = 0.5, num_comments = 0, score = 0`. -/
def scoreDivisiveness (log10 : ℚ → ℚ) (p : RedditPost) : ℚ :=
  ratioDivisiveness (p.upvote_ratio.getD 0.5) * 0.6 +
    engagementWeight log10 (p.num_comments.getD 0) * 0.3 +
    scoreWeight (p.score.getD 0) * 0.1

/-- Raw YouTube statistics; `none` models a missing field, which the code's
`parseInt(stats.x || '0', 10)` turns into 0. -/
structure VideoStats where
  viewCount : Option ℕ
  commentCount : Option ℕ
  likeCount : Option ℕ
deriving DecidableEq

/-- Embeds the YouTube scraper's divisiveness computation:
`commentDensity = viewCount > 0 ? commentCount / viewCount : 0` and
`divisiveness = Math.min(commentDensity * 1000, 1)`. -/
def videoDivisiveness (viewCount commentCount : ℚ) : ℚ :=
  min ((if 0 < viewCount then commentCount / viewCount else 0) * 1000) 1

/-- The same computation applied to raw statistics with missing fields. -/
def videoDivisivenessStats (s : VideoStats) : ℚ :=
  videoDivisiveness (s.viewCount.getD 0 : ℕ) (s.commentCount.getD 0 : ℕ)

/-- A concrete stand-in for `Math.log10` used to instantiate theorems whose
hypotheses only require nonnegativity on `[1, ∞)`. -/
def zeroLog : ℚ → ℚ := fun _ => 0

example : normalizeTitle "War!" = "war" := by decide
example : tokens "immigration reform bill" = ["immigration", "reform", "bill"] := by decide

/-- The ratio-divisiveness term lies in `[0, 1]` on approval ratios in `[0, 1]`. -/
lemma ratioDivisiveness_bounds {r : ℚ} (hr0 : 0 ≤ r) (hr1 : r ≤ 1) :
    0 ≤ ratioDivisiveness r ∧ ratioDivisiveness r ≤ 1 := by
  have habs : |r - 0.5| ≤ 0.5 := abs_le.mpr ⟨by linarith, by linarith⟩
  have hnn : 0 ≤ |r - 0.5| := abs_nonneg _
  unfold ratioDivisiveness
  constructor <;> linarith

/-- The engagement weight lies in `[0, 1]` whenever the logarithm is
nonnegative at `comment_count + 1 ≥ 1`. -/
lemma engagementWeight_bounds {log10 : ℚ → ℚ} {c : ℚ} (hc : 0 ≤ c)
    (hlog : ∀ x, 1 ≤ x → 0 ≤ log10 x) :
    0 ≤ engagementWeight log10 c ∧ engagementWeight log10 c ≤ 1 :=
  ⟨le_min (div_nonneg (hlog _ (by linarith)) (by norm_num)) zero_le_one,
    min_le_right _ _⟩

/-- The score weight lies in `[0, 1]` on nonnegative raw scores. -/
lemma scoreWeight_bounds {s : ℚ} (hs : 0 ≤ s) :
    0 ≤ scoreWeight s ∧ scoreWeight s ≤ 1 := by
  unfold scoreWeight
  split_ifs with h
  · exact ⟨zero_le_one, le_refl 1⟩
  · exact ⟨div_nonneg hs (by norm_num),
      (div_le_one (by norm_num)).mpr (by linarith [not_lt.mp h])⟩

/-- C3: on a discussion post with `approval_ratio ∈ [0,1]`, `comment_count ≥ 0`
and `raw_score ≥ 0`, the divisiveness score equals
`0.6 * ratio_divisiveness + 0.3 * engagement_weight + 0.1 * score_weight`,
lies in `[0, 1]`, and the ratio-divisiveness term equals 1 exactly at
`approval_ratio = 0.5` and decreases monotonically toward the extremes
(the host `Math.log10` is any function nonnegative on `[1, ∞)`). -/
theorem discussion_divisiveness_spec (log10 : ℚ → ℚ) (r c s : ℚ)
    (hr0 : 0 ≤ r) (hr1 : r ≤ 1) (hc : 0 ≤ c) (hs : 0 ≤ s)
    (hlog : ∀ x, 1 ≤ x → 0 ≤ log10 x) :
    scoreDivisiveness log10 ⟨some r, some c, some s⟩ =
      0.6 * (1 - |r - 0.5| * 2) + 0.3 * min (log10 (c + 1) / 4) 1 +
        0.1 * (if 100 < s then 1 else s / 100) ∧
    0 ≤ scoreDivisiveness log10 ⟨some r, some c, some s⟩ ∧
    scoreDivisiveness log10 ⟨some r, some c, some s⟩ ≤ 1 ∧
    (ratioDivisiveness r = 1 ↔ r = 0.5) ∧
    (∀ r1 r2 : ℚ, 0.5 ≤ r1 → r1 ≤ r2 →
      ratioDivisiveness r2 ≤ ratioDivisiveness r1) ∧
    (∀ r1 r2 : ℚ, r1 ≤ r2 → r2 ≤ 0.5 →
      ratioDivisiveness r1 ≤ ratioDivisiveness r2) := by
  obtain ⟨ha0, ha1⟩ := ratioDivisiveness_bounds hr0 hr1
  obtain ⟨hb0, hb1⟩ := engagementWeight_bounds hc hlog
  obtain ⟨hc0, hc1⟩ := scoreWeight_bounds hs
  refine ⟨?_, ?_, ?_, ?_, ?_, ?_⟩
  · unfold scoreDivisiveness ratioDivisiveness engagementWeight scoreWeight
    simp only [Option.getD_some]
    ring
  · unfold scoreDivisiveness at *
    simp only [Option.getD_some]
    unfold ratioDivisiveness engagementWeight scoreWeight at *
    linarith
  · unfold scoreDivisiveness at *
    simp only [Option.getD_some]
    unfold ratioDivisiveness engagementWeight scoreWeight at *
    linarith
  · unfold ratioDivisiveness
    constructor
    · intro h
      have h0 : |r - 0.5| = 0 := by
        have := abs_nonneg (r - 0.5); linarith
      have := abs_eq_zero.mp h0
      linarith [sub_eq_zero.mp this]
    · intro h
      subst h
      norm_num
  · intro r1 r2 h1 h2
    unfold ratioDivisiveness
    rw [abs_of_nonneg (by linarith : (0:ℚ) ≤ r2 - 0.5),
      abs_of_nonneg (by linarith : (0:ℚ) ≤ r1 - 0.5)]
    linarith
  · intro r1 r2 h1 h2
    unfold ratioDivisiveness
    rw [abs_of_nonpos (by linarith : r1 - 0.5 ≤ (0:ℚ)),
      abs_of_nonpos (by linarith : r2 - 0.5 ≤ (0:ℚ))]
    linarith

/-- Witness for C3 at the spec's example `approval_ratio = 0.5,
comment_count = 1000, raw_score = 200`. -/
theorem discussion_divisiveness_spec_witness :
    (0 ≤ (0.5 : ℚ) ∧ (0.5 : ℚ) ≤ 1 ∧ 0 ≤ (1000 : ℚ) ∧ 0 ≤ (200 : ℚ)) ∧
    (ratioDivisiveness 0.5 = 1 ↔ (0.5 : ℚ) = 0.5) :=
  ⟨⟨by norm_num, by norm_num, by norm_num, by norm_num⟩,
    (discussion_divisiveness_spec zeroLog 0.5 1000 200 (by norm_num)
      (by norm_num) (by norm_num) (by norm_num)
      (fun x _ => le_refl 0)).2.2.2.1⟩

/-- C7: the video divisiveness score is `min(comment_density * 1000, 1)` with
density `comment_count / view_count`, defined as 0 when `view_count = 0`;
in particular 50 comments on 1000 views saturate at 1 and 50 comments on
100000 views score 0.5. -/
theorem video_divisiveness_spec (v c : ℚ) (hv : 0 ≤ v) (hc : 0 ≤ c) :
    (0 < v → videoDivisiveness v c = min (c / v * 1000) 1) ∧
    videoDivisiveness 0 c = 0 ∧
    videoDivisiveness 1000 50 = 1 ∧
    videoDivisiveness 100000 50 = 0.5 := by
  refine ⟨fun h => by rw [videoDivisiveness, if_pos h], ?_, ?_, ?_⟩
  · rw [videoDivisiveness, if_neg (lt_irrefl 0)]
    norm_num
  · rw [videoDivisiveness, if_pos (by norm_num : (0:ℚ) < 1000),
      min_eq_right (by norm_num : (1:ℚ) ≤ 50 / 1000 * 1000)]
  · rw [videoDivisiveness, if_pos (by norm_num : (0:ℚ) < 100000),
      min_eq_left (by norm_num : (50:ℚ) / 100000 * 1000 ≤ 1)]
    norm_num

/-- Witness for C7 at `view_count = 1000, comment_count = 50`. -/
theorem video_divisiveness_spec_witness :
    (0 ≤ (1000 : ℚ) ∧ 0 ≤ (50 : ℚ) ∧ (0 : ℚ) < 1000) ∧
    videoDivisiveness 1000 50 = min (50 / 1000 * 1000) 1 :=
  ⟨⟨by norm_num, by norm_num, by norm_num⟩,
    (video_divisiveness_spec 1000 50 (by norm_num) (by norm_num)).1 (by norm_num)⟩

/-- C5: both versions of the core pipeline map three empty source lists to an
empty ranked list; being total Lean functions, they cannot throw. -/
theorem empty_pipeline :
    mergeSignalsV1 [] [] [] = [] ∧ mergeSignalsV2 [] [] [] = [] :=
  ⟨rfl, rfl⟩

/-- C9: the pipeline is deterministic — identical source lists produce the
identical ranked sequence under both weightings.  The embedding reflects that
the JS `Map` iterates in insertion order and `Array.prototype.sort` is stable,
so the code is a pure function of its inputs. -/
theorem merge_deterministic (rs rs2 : List RedditCandidate)
    (gs gs2 : List GoogleTrend) (ys ys2 : List YoutubeCandidate)
    (hr : rs = rs2) (hg : gs = gs2) (hy : ys = ys2) :
    mergeSignalsV1 rs gs ys = mergeSignalsV1 rs2 gs2 ys2 ∧
    mergeSignalsV2 rs gs ys = mergeSignalsV2 rs2 gs2 ys2 := by
  subst hr; subst hg; subst hy; exact ⟨rfl, rfl⟩

/-- Witness for C9 at the empty inputs. -/
theorem merge_deterministic_witness :
    (([] : List RedditCandidate) = [] ∧ ([] : List GoogleTrend) = [] ∧
      ([] : List YoutubeCandidate) = []) ∧
    mergeSignalsV1 [] [] [] = mergeSignalsV1 [] [] [] :=
  ⟨⟨rfl, rfl, rfl⟩, (merge_deterministic [] [] [] [] [] [] rfl rfl rfl).1⟩

/-- C10: when each stored per-source signal and the engagement term lie in
`[0, 1]`, both composite scores lie in `[0, 1]` (each weighting's four weights
sum to 1 and the cross-platform term is capped at 1 by `min`). -/
theorem composite_bounded (c : Candidate)
    (h1 : 0 ≤ c.reddit_divisiveness) (h2 : c.reddit_divisiveness ≤ 1)
    (h3 : 0 ≤ c.youtube_divisiveness) (h4 : c.youtube_divisiveness ≤ 1)
    (h5 : 0 ≤ c.google_score) (h6 : c.google_score ≤ 1)
    (h7 : 0 ≤ engagementScore c) :
    0 ≤ compositeV1 c ∧ compositeV1 c ≤ 1 ∧
    0 ≤ compositeV2 c ∧ compositeV2 c ≤ 1 := by
  have hm0 : 0 ≤ multiPlatform c :=
    le_min (div_nonneg (Nat.cast_nonneg _) (by norm_num)) zero_le_one
  have hm1 : multiPlatform c ≤ 1 := min_le_right _ _
  have he1 : engagementScore c ≤ 1 := min_le_right _ _
  unfold compositeV1 compositeV2
  refine ⟨by linarith, by linarith, by linarith, by linarith⟩

/-- A candidate with all signals zero, used to instantiate bound theorems. -/
def zeroCand : Candidate :=
  { title := "probe", reddit_divisiveness := 0, reddit_comments := 0,
    reddit_subreddits := [], google_score := 0, youtube_divisiveness := 0,
    sources := [] }

/-- Witness for C10 at a candidate with all signals zero. -/
theorem composite_bounded_witness :
    (0 ≤ zeroCand.reddit_divisiveness ∧ zeroCand.reddit_divisiveness ≤ 1 ∧
      0 ≤ zeroCand.youtube_divisiveness ∧ zeroCand.youtube_divisiveness ≤ 1 ∧
      0 ≤ zeroCand.google_score ∧ zeroCand.google_score ≤ 1 ∧
      0 ≤ engagementScore zeroCand) ∧
    0 ≤ compositeV1 zeroCand :=
  ⟨⟨by norm_num [zeroCand], by norm_num [zeroCand], by norm_num [zeroCand],
      by norm_num [zeroCand], by norm_num [zeroCand], by norm_num [zeroCand],
      by norm_num [zeroCand, engagementScore]⟩,
    (composite_bounded zeroCand (by norm_num [zeroCand]) (by norm_num [zeroCand])
      (by norm_num [zeroCand]) (by norm_num [zeroCand]) (by norm_num [zeroCand])
      (by norm_num [zeroCand])
      (by norm_num [zeroCand, engagementScore])).1⟩

/-- C8 (amended): JS destructuring and `parseInt(x || '0')` make every scorer
total: a missing `num_comments` or `score` is treated as 0, a missing
`upvote_ratio` is treated as 0.5 (not 0), missing video counters are treated
as 0, and a zero `view_count` yields density 0 rather than a fault. -/
theorem scorer_defaults (log10 : ℚ → ℚ) :
    (∀ p : RedditPost, scoreDivisiveness log10 p =
      scoreDivisiveness log10 ⟨some (p.upvote_ratio.getD 0.5),
        some (p.num_comments.getD 0), some (p.score.getD 0)⟩) ∧
    (∀ c s : Option ℚ, scoreDivisiveness log10 ⟨none, c, s⟩ =
      scoreDivisiveness log10 ⟨some 0.5, c, s⟩) ∧
    (∀ c : Option ℕ, videoDivisivenessStats ⟨none, c, none⟩ = 0) ∧
    (∀ c : ℚ, videoDivisiveness 0 c = 0) := by
  refine ⟨fun p => rfl, fun c s => rfl, fun c => ?_, fun c => ?_⟩
  · show videoDivisiveness ((0 : ℕ) : ℚ) _ = 0
    rw [Nat.cast_zero, videoDivisiveness, if_neg (lt_irrefl 0)]
    norm_num
  · rw [videoDivisiveness, if_neg (lt_irrefl 0)]
    norm_num

/-- Token overlap is always nonnegative. -/
lemma overlapQ_nonneg (kw ew : List String) : 0 ≤ overlapQ kw ew :=
  div_nonneg (Nat.cast_nonneg _) (Nat.cast_nonneg _)

/-- A nonempty token set has overlap 1 with itself. -/
lemma overlapQ_self {kw : List String} (h : kw ≠ []) : overlapQ kw kw = 1 := by
  unfold overlapQ
  have hf : kw.filter (fun w => w ∈ kw) = kw :=
    List.filter_eq_self.mpr (fun a ha => by simpa using ha)
  have hlen : kw.length ≠ 0 := by simpa using h
  rw [hf, max_self, Nat.max_eq_left (Nat.one_le_iff_ne_zero.mpr hlen),
    div_self (by exact_mod_cast hlen)]

/-- An empty new-key token set has overlap 0 with every pool key. -/
lemma ovKey_nil_left (k : String) : ovKey [] k = 0 := by
  simp [ovKey, overlapQ]

/-- With an empty new-key token set no pool entry can ever match. -/
lemma findBestAux_nil_kw :
    ∀ (keys : List String) (i : ℕ) (best : Option ℕ) (bOv : ℚ),
      findBestAux [] keys i best bOv = best := by
  intro keys
  induction keys with
  | nil => intro i best bOv; rfl
  | cons k rest ih =>
      intro i best bOv
      simp only [findBestAux, ovKey_nil_left]
      rw [if_neg (by rintro ⟨h1, -⟩; norm_num at h1)]
      exact ih ..

/-- A key whose token set is empty never fuzzy-matches any pool. -/
lemma findBestIdx_empty_tokens {key : String} (h : tokens key = [])
    (keys : List String) : findBestIdx key keys = none := by
  unfold findBestIdx
  rw [h]
  exact findBestAux_nil_kw keys 0 none 0

/-- A key with a nonempty token set fuzzy-matches a singleton pool holding
exactly that key (overlap 1). -/
lemma findBestIdx_single_self {key : String} (h : tokens key ≠ []) :
    findBestIdx key [key] = some 0 := by
  unfold findBestIdx
  have h1 : ovKey (tokens key) key = 1 := overlapQ_self h
  simp only [findBestAux, h1]
  rw [if_pos ⟨by norm_num, by norm_num⟩]

/-- Folding a Google candidate into the empty pool creates its record. -/
lemma addGoogle_nil (g : GoogleTrend) :
    addGoogle [] g = [(normalizeTitle g.title, googleRec g)] := rfl

/-- Folding the same Google candidate twice: when its key has a token longer
than 3 characters, the second fold matches the record the first fold created,
rewrites `google_score` with the same value and appends a second
`"google_trends"` entry to `sources`. -/
lemma addGoogle_twice_nonempty (g : GoogleTrend)
    (h : tokens (normalizeTitle g.title) ≠ []) :
    addGoogle (addGoogle [] g) g =
      [(normalizeTitle g.title,
        { googleRec g with sources := ["google_trends", "google_trends"] })] := by
  rw [addGoogle_nil]
  unfold addGoogle
  have hidx : findBestIdx (normalizeTitle g.title)
      ([(normalizeTitle g.title, googleRec g)].map Prod.fst) = some 0 := by
    simp only [List.map]
    exact findBestIdx_single_self h
  rw [hidx]
  rfl

/-- Folding the same Google candidate twice: when its key has no token longer
than 3 characters, the second fold finds no match and `Map.set` rewrites the
same entry, so the double fold is fully idempotent. -/
lemma addGoogle_twice_empty (g : GoogleTrend)
    (h : tokens (normalizeTitle g.title) = []) :
    addGoogle (addGoogle [] g) g = addGoogle [] g := by
  rw [addGoogle_nil]
  unfold addGoogle
  have hidx : findBestIdx (normalizeTitle g.title)
      ([(normalizeTitle g.title, googleRec g)].map Prod.fst) = none := by
    simp only [List.map]
    exact findBestIdx_empty_tokens h _
  rw [hidx]
  simp [mapSet]

/-- Full characterization of the `findBestMatch` accumulator loop: starting
from remembered state `(best, bOv)`, either no entry beats both the 0.4
threshold and `bOv` and the remembered best is returned, or the loop returns
the position of the first entry realizing the maximal overlap, which exceeds
both the threshold and `bOv`. -/
lemma findBestAux_spec (kw : List String) :
    ∀ (keys : List String) (i0 : ℕ) (best : Option ℕ) (bOv : ℚ),
      (findBestAux kw keys i0 best bOv = best ∧
        ∀ k ∈ keys, ovKey kw k ≤ 2/5 ∨ ovKey kw k ≤ bOv) ∨
      (∃ j, ∃ hj : j < keys.length,
        findBestAux kw keys i0 best bOv = some (i0 + j) ∧
        2/5 < ovKey kw keys[j] ∧ bOv < ovKey kw keys[j] ∧
        (∀ m, ∀ hm : m < keys.length, ovKey kw keys[m] ≤ ovKey kw keys[j]) ∧
        (∀ m, ∀ hm : m < keys.length, m < j →
          ovKey kw keys[m] < ovKey kw keys[j])) := by
  intro keys
  induction keys with
  | nil =>
      intro i0 best bOv
      exact Or.inl ⟨rfl, by simp⟩
  | cons k rest ih =>
      intro i0 best bOv
      by_cases h : 2/5 < ovKey kw k ∧ bOv < ovKey kw k
      · have hstep : findBestAux kw (k :: rest) i0 best bOv =
            findBestAux kw rest (i0 + 1) (some i0) (ovKey kw k) := by
          simp only [findBestAux]
          rw [if_pos h]
        rcases ih (i0 + 1) (some i0) (ovKey kw k) with
          ⟨heq, hall⟩ | ⟨j, hj, heq, hth, hbv, hmax, hfirst⟩
        · refine Or.inr ⟨0, by simp, ?_, ?_, ?_, ?_, ?_⟩
          · rw [hstep, heq, Nat.add_zero]
          · simpa using h.1
          · simpa using h.2
          · intro m hm
            cases m with
            | zero => simp
            | succ m' =>
                have hm' : m' < rest.length := by simpa using hm
                have hmem := hall rest[m'] (List.getElem_mem hm')
                simp only [List.getElem_cons_succ, List.getElem_cons_zero]
                rcases hmem with h1 | h1
                · exact le_trans h1 h.1.le
                · exact h1
          · intro m hm hm0
            omega
        · refine Or.inr ⟨j + 1, by simpa using Nat.succ_lt_succ hj, ?_, ?_, ?_, ?_, ?_⟩
          · rw [hstep, heq]
            congr 1
            omega
          · simpa using hth
          · simp only [List.getElem_cons_succ]
            exact h.2.trans hbv
          · intro m hm
            cases m with
            | zero =>
                simp only [List.getElem_cons_zero, List.getElem_cons_succ]
                exact hbv.le
            | succ m' =>
                simp only [List.getElem_cons_succ]
                exact hmax m' (by simpa using hm)
          · intro m hm hmj
            cases m with
            | zero =>
                simp only [List.getElem_cons_zero, List.getElem_cons_succ]
                exact hbv
            | succ m' =>
                simp only [List.getElem_cons_succ]
                exact hfirst m' (by simpa using hm) (by omega)
      · have hstep : findBestAux kw (k :: rest) i0 best bOv =
            findBestAux kw rest (i0 + 1) best bOv := by
          simp only [findBestAux]
          rw [if_neg h]
        have hk : ovKey kw k ≤ 2/5 ∨ ovKey kw k ≤ bOv := by
          rcases not_and_or.mp h with h1 | h1
          · exact Or.inl (not_lt.mp h1)
          · exact Or.inr (not_lt.mp h1)
        rcases ih (i0 + 1) best bOv with
          ⟨heq, hall⟩ | ⟨j, hj, heq, hth, hbv, hmax, hfirst⟩
        · refine Or.inl ⟨hstep.trans heq, ?_⟩
          intro k0 hk0
          rcases List.mem_cons.mp hk0 with rfl | hk0
          · exact hk
          · exact hall k0 hk0
        · refine Or.inr ⟨j + 1, by simpa using Nat.succ_lt_succ hj, ?_, ?_, ?_, ?_, ?_⟩
          · rw [hstep, heq]
            congr 1
            omega
          · simpa using hth
          · simp only [List.getElem_cons_succ]
            exact hbv
          · intro m hm
            cases m with
            | zero =>
                simp only [List.getElem_cons_zero, List.getElem_cons_succ]
                rcases hk with h1 | h1
                · exact le_trans h1 hth.le
                · exact le_trans h1 hbv.le
            | succ m' =>
                simp only [List.getElem_cons_succ]
                exact hmax m' (by simpa using hm)
          · intro m hm hmj
            cases m with
            | zero =>
                simp only [List.getElem_cons_zero, List.getElem_cons_succ]
                rcases hk with h1 | h1
                · exact lt_of_le_of_lt h1 hth
                · exact lt_of_le_of_lt h1 hbv
            | succ m' =>
                simp only [List.getElem_cons_succ]
                exact hfirst m' (by simpa using hm) (by omega)

/-- The singleton pool whose key has the five long words
`aaaa bbbb cccc dddd eeee`, used for threshold boundary checks. -/
def pool5 : Pool := [("aaaa bbbb cccc dddd eeee", zeroCand)]

/-- A pool whose single key has an empty token set (no word longer than 3). -/
def poolCd : Pool := [("cd", zeroCand)]

/-- Top-level case analysis of `findBestMatch`: either no pool key clears the
strict 0.4 threshold and no match is returned, or the first entry of maximal
overlap is returned and its overlap clears the threshold. -/
lemma findBestMatch_cases (key : String) (pool : Pool) :
    (findBestMatch key pool = none ∧
      ∀ p ∈ pool, ovKey (tokens key) p.1 ≤ 2/5) ∨
    (∃ j, ∃ hj : j < pool.length,
      findBestMatch key pool = some (pool[j]).2 ∧
      2/5 < ovKey (tokens key) (pool[j]).1 ∧
      (∀ m, ∀ hm : m < pool.length,
        ovKey (tokens key) (pool[m]).1 ≤ ovKey (tokens key) (pool[j]).1) ∧
      (∀ m, ∀ hm : m < pool.length, m < j →
        ovKey (tokens key) (pool[m]).1 < ovKey (tokens key) (pool[j]).1)) := by
  rcases findBestAux_spec (tokens key) (pool.map Prod.fst) 0 none 0 with
    ⟨heq, hall⟩ | ⟨j, hj, heq, hth, hbv, hmax, hfirst⟩
  · left
    constructor
    · unfold findBestMatch findBestIdx
      rw [heq]
      rfl
    · intro p hp
      rcases hall p.1 (List.mem_map_of_mem Prod.fst hp) with h1 | h1
      · exact h1
      · exact le_trans h1 (by norm_num)
  · right
    have hj' : j < pool.length := by simpa using hj
    refine ⟨j, hj', ?_, ?_, ?_, ?_⟩
    · unfold findBestMatch findBestIdx
      rw [heq, Nat.zero_add]
      show (pool.get? j).map Prod.snd = _
      rw [List.get?_eq_get hj']
      simp
    · simpa using hth
    · intro m hm
      have h := hmax m (by simpa using hm)
      simpa using h
    · intro m hm hmj
      have h := hfirst m (by simpa using hm) hmj
      simpa using h

/-- C2: the Fuzzy Matcher returns a cluster iff some pool key's token overlap
strictly exceeds 0.4 (tokens being distinct words longer than 3 characters,
overlap `|shared| / max(|new|, |existing|, 1)`); the returned cluster has the
maximal overlap, ties going to the first-inserted entry; and at the boundary,
2 shared long words out of 5 (overlap 0.4) never match, 3 of 5 (0.6) do, and
keys with empty token sets never match. -/
theorem fuzzy_matcher_spec :
    (∀ (key : String) (pool : Pool),
      (findBestMatch key pool).isSome ↔
        ∃ p ∈ pool, 2/5 < ovKey (tokens key) p.1) ∧
    (∀ (key : String) (pool : Pool) (v : Candidate),
      findBestMatch key pool = some v →
        ∃ i, ∃ hi : i < pool.length,
          (pool[i]).2 = v ∧
          2/5 < ovKey (tokens key) (pool[i]).1 ∧
          (∀ j, ∀ hj : j < pool.length,
            ovKey (tokens key) (pool[j]).1 ≤ ovKey (tokens key) (pool[i]).1) ∧
          (∀ j, ∀ hj : j < pool.length, j < i →
            ovKey (tokens key) (pool[j]).1 < ovKey (tokens key) (pool[i]).1)) ∧
    findBestMatch "aaaa bbbb ffff gggg hhhh" pool5 = none ∧
    findBestMatch "aaaa bbbb cccc gggg hhhh" pool5 = some zeroCand ∧
    findBestMatch "ab" poolCd = none := by
  refine ⟨?_, ?_, ?_, ?_, ?_⟩
  · intro key pool
    rcases findBestMatch_cases key pool with ⟨heq, hall⟩ |
      ⟨j, hj, heq, hth, hmax, hfirst⟩
    · rw [heq]
      simp only [Option.isSome_none, Bool.false_eq_true, false_iff]
      rintro ⟨p, hp, hov⟩
      exact absurd hov (not_lt.mpr (hall p hp))
    · rw [heq]
      simp only [Option.isSome_some, true_iff]
      exact ⟨pool[j], List.getElem_mem hj, hth⟩
  · intro key pool v hv
    rcases findBestMatch_cases key pool with ⟨heq, hall⟩ |
      ⟨j, hj, heq, hth, hmax, hfirst⟩
    · rw [heq] at hv
      cases hv
    · rw [heq] at hv
      exact ⟨j, hj, (Option.some.inj hv).symm ▸ rfl, hth, hmax, hfirst⟩
  · have h1 : ((tokens "aaaa bbbb ffff gggg hhhh").filter
        (fun w => w ∈ tokens "aaaa bbbb cccc dddd eeee")).length = 2 := by decide
    have h2 : max (max (tokens "aaaa bbbb ffff gggg hhhh").length
        (tokens "aaaa bbbb cccc dddd eeee").length) 1 = 5 := by decide
    have hov : ovKey (tokens "aaaa bbbb ffff gggg hhhh")
        "aaaa bbbb cccc dddd eeee" = 2/5 := by
      unfold ovKey overlapQ
      rw [h1, h2]
      norm_num
    unfold findBestMatch findBestIdx pool5
    simp only [List.map, findBestAux, hov]
    rw [if_neg (by rintro ⟨hlt, -⟩; exact lt_irrefl _ hlt)]
    rfl
  · have h1 : ((tokens "aaaa bbbb cccc gggg hhhh").filter
        (fun w => w ∈ tokens "aaaa bbbb cccc dddd eeee")).length = 3 := by decide
    have h2 : max (max (tokens "aaaa bbbb cccc gggg hhhh").length
        (tokens "aaaa bbbb cccc dddd eeee").length) 1 = 5 := by decide
    have hov : ovKey (tokens "aaaa bbbb cccc gggg hhhh")
        "aaaa bbbb cccc dddd eeee" = 3/5 := by
      unfold ovKey overlapQ
      rw [h1, h2]
      norm_num
    unfold findBestMatch findBestIdx pool5
    simp only [List.map, findBestAux, hov]
    rw [if_pos ⟨by norm_num, by norm_num⟩]
    rfl
  · unfold findBestMatch
    rw [findBestIdx_empty_tokens (by decide)]
    rfl

/-- Witness for C2's best-match characterization at the 3-of-5 boundary pair. -/
theorem fuzzy_matcher_spec_witness :
    findBestMatch "aaaa bbbb cccc gggg hhhh" pool5 = some zeroCand ∧
    ∃ i, ∃ hi : i < pool5.length,
      (pool5[i]).2 = zeroCand ∧
      2/5 < ovKey (tokens "aaaa bbbb cccc gggg hhhh") (pool5[i]).1 ∧
      (∀ j, ∀ hj : j < pool5.length,
        ovKey (tokens "aaaa bbbb cccc gggg hhhh") (pool5[j]).1 ≤
          ovKey (tokens "aaaa bbbb cccc gggg hhhh") (pool5[i]).1) ∧
      (∀ j, ∀ hj : j < pool5.length, j < i →
        ovKey (tokens "aaaa bbbb cccc gggg hhhh") (pool5[j]).1 <
          ovKey (tokens "aaaa bbbb cccc gggg hhhh") (pool5[i]).1) :=
  ⟨fuzzy_matcher_spec.2.2.2.1,
    fuzzy_matcher_spec.2.1 "aaaa bbbb cccc gggg hhhh" pool5 zeroCand
      fuzzy_matcher_spec.2.2.2.1⟩

/-- The Google Trends candidate used in concrete merge runs. -/
def gT : GoogleTrend := { title := "Immigration Reform Bill", score := 50 }

/-- The degenerate-key Reddit candidate (every word has at most 3 letters). -/
def rWar : RedditCandidate :=
  { title := "War!", divisiveness_score := 9/10, total_comments := 100,
    subreddits := ["news"] }

/-- The degenerate-key Google candidate colliding with `rWar`'s pool key. -/
def gWar : GoogleTrend := { title := "war", score := 50 }

/-- C4 (amended): re-folding the same candidate for the same source leaves the
per-source score slot at the same value, but `sources` is a JS array, not a
set — when the key has a token longer than 3 characters the second fold
appends a duplicate `"google_trends"` entry, double-counting the source; when
the key has no such token the second fold is fully idempotent. -/
theorem merge_double_fold (g : GoogleTrend) :
    (tokens (normalizeTitle g.title) ≠ [] →
      (addGoogle (addGoogle [] g) g).map (fun p => p.2.google_score) =
        [g.score / 100] ∧
      (addGoogle (addGoogle [] g) g).map (fun p => p.2.sources) =
        [["google_trends", "google_trends"]]) ∧
    (tokens (normalizeTitle g.title) = [] →
      addGoogle (addGoogle [] g) g = addGoogle [] g) := by
  refine ⟨fun h => ?_, fun h => addGoogle_twice_empty g h⟩
  rw [addGoogle_twice_nonempty g h]
  exact ⟨rfl, rfl⟩

/-- Witness for C4's amended theorem at the concrete candidate `gT`. -/
theorem merge_double_fold_witness :
    tokens (normalizeTitle gT.title) ≠ [] ∧
    (addGoogle (addGoogle [] gT) gT).map (fun p => p.2.sources) =
      [["google_trends", "google_trends"]] :=
  ⟨by decide, ((merge_double_fold gT).1 (by decide)).2⟩

/-- Counterexample for C4 as stated: after folding the same candidate twice
for the Google source, `contributing_sources` contains `"google_trends"`
twice — the fold double-counts rather than behaving as a set. -/
theorem merge_double_fold_counterexample :
    (addGoogle (addGoogle [] gT) gT).map
        (fun p => p.2.sources.count "google_trends") = [2] ∧
    (addGoogle [] gT).map (fun p => p.2.sources.count "google_trends") = [1] := by
  constructor
  · rw [addGoogle_twice_nonempty gT (by decide)]
    rfl
  · rfl

/-- C6: `mergeSignals` silently drops a candidate.  `rWar` (divisiveness 0.9)
creates the pool entry keyed `"war"`; the Google candidate `gWar` normalizes
to the same key but its token set is empty, so `findBestMatch` fails and
`candidates.set` overwrites the Reddit entry — the resulting pool holds a
single google-only cluster and the Reddit candidate's signals are gone. -/
theorem merger_drops_candidate :
    (buildPool [rWar] [gWar] []).map
        (fun p => (p.2.title, p.2.reddit_divisiveness, p.2.sources)) =
      [("war", 0, ["google_trends"])] := by
  have hr : addReddit [] rWar = [("war", redditRec rWar)] := rfl
  have hidx : findBestIdx (normalizeTitle gWar.title)
      ([("war", redditRec rWar)].map Prod.fst) = none := by
    simp only [List.map]
    exact findBestIdx_empty_tokens (by decide) _
  have h1 : buildPool [rWar] [gWar] [] = [("war", googleRec gWar)] := by
    unfold buildPool
    simp only [List.foldl]
    rw [hr]
    unfold addGoogle
    rw [hidx]
    rfl
  rw [h1]
  rfl

/-- C1 (amended): version 1 computes `0.45 * discussion + 0.25 * video +
0.15 * trends + 0.15 * cross_platform` with `cross_platform =
min(|sources| / 3, 1)`; version 2 instead computes `0.35 * engagement +
0.25 * trends + 0.20 * cross_platform + 0.20 * discussion` with no video
term; both weightings are hard-wired constants.  Both rankers return the
scored pool sorted descending by composite score with a stable sort (ties
keep input order) truncated to the top 20. -/
theorem composite_ranker_spec :
    (∀ c, compositeV1 c = 0.45 * c.reddit_divisiveness +
      0.25 * c.youtube_divisiveness + 0.15 * c.google_score +
      0.15 * min ((c.sources.length : ℚ) / 3) 1) ∧
    (∀ c, compositeV2 c = 0.35 * min (c.reddit_comments / 5000) 1 +
      0.25 * c.google_score + 0.20 * min ((c.sources.length : ℚ) / 3) 1 +
      0.20 * c.reddit_divisiveness) ∧
    (∀ rs gs ys,
      mergeSignalsV1 rs gs ys =
        ((scoredV1 rs gs ys).insertionSort rankLe).take 20 ∧
      mergeSignalsV2 rs gs ys =
        ((scoredV2 rs gs ys).insertionSort rankLe).take 20 ∧
      (mergeSignalsV1 rs gs ys).length ≤ 20 ∧
      (mergeSignalsV2 rs gs ys).length ≤ 20 ∧
      (mergeSignalsV1 rs gs ys).Sorted rankLe ∧
      (mergeSignalsV2 rs gs ys).Sorted rankLe) ∧
    (∀ l : List Candidate,
      List.Perm (l.insertionSort rankLe) l ∧
      (l.insertionSort rankLe).Sorted rankLe ∧
      (∀ a b, List.Sublist [a, b] l → a.composite_score = b.composite_score →
        List.Sublist [a, b] (l.insertionSort rankLe))) := by
  refine ⟨fun c => ?_, fun c => ?_, fun rs gs ys => ?_, fun l => ?_⟩
  · unfold compositeV1 multiPlatform
    ring
  · unfold compositeV2 engagementScore multiPlatform
    ring
  · refine ⟨rfl, rfl, List.length_take_le .., List.length_take_le .., ?_, ?_⟩
    · exact List.Pairwise.sublist (List.take_sublist 20 _)
        (List.sorted_insertionSort rankLe _)
    · exact List.Pairwise.sublist (List.take_sublist 20 _)
        (List.sorted_insertionSort rankLe _)
  · exact ⟨List.perm_insertionSort rankLe l, List.sorted_insertionSort rankLe l,
      fun a b hab he => pair_sublist_insertionSort hab (le_of_eq he.symm)⟩

/-- Two tied candidates used to witness stability of the ranker. -/
def cW1 : Candidate :=
  { title := "w1", reddit_divisiveness := 0, reddit_comments := 0,
    reddit_subreddits := [], google_score := 0, youtube_divisiveness := 0,
    sources := [], composite_score := 1/2 }

/-- The second tied candidate, differing from `cW1` only in its title. -/
def cW2 : Candidate :=
  { title := "w2", reddit_divisiveness := 0, reddit_comments := 0,
    reddit_subreddits := [], google_score := 0, youtube_divisiveness := 0,
    sources := [], composite_score := 1/2 }

/-- Witness for C1's amended theorem: two equal-scored candidates keep their
input order through the ranker's sort. -/
theorem composite_ranker_spec_witness :
    (List.Sublist [cW1, cW2] [cW1, cW2] ∧ cW1.composite_score = cW2.composite_score) ∧
    List.Sublist [cW1, cW2] (List.insertionSort rankLe [cW1, cW2]) :=
  ⟨⟨List.Sublist.refl _, rfl⟩,
    (composite_ranker_spec.2.2.2 [cW1, cW2]).2.2 cW1 cW2
      (List.Sublist.refl _) rfl⟩

/-- A candidate with no engagement, used to refute the claimed V2 formula. -/
def cEngA : Candidate :=
  { title := "t", reddit_divisiveness := 0, reddit_comments := 0,
    reddit_subreddits := [], google_score := 0, youtube_divisiveness := 0,
    sources := ["reddit"] }

/-- The same candidate with 5000 comments: identical four claimed signals. -/
def cEngB : Candidate :=
  { title := "t", reddit_divisiveness := 0, reddit_comments := 5000,
    reddit_subreddits := [], google_score := 0, youtube_divisiveness := 0,
    sources := ["reddit"] }

/-- Counterexample for C1 as stated: the second weighting's composite is not
any function `w1 * discussion + w2 * video + w3 * trends + w4 * presence` of
the four claimed signals — two candidates agreeing on all four signals (and
differing only in raw comment volume) receive different composite scores. -/
theorem composite_ranker_counterexample :
    cEngA.reddit_divisiveness = cEngB.reddit_divisiveness ∧
    cEngA.youtube_divisiveness = cEngB.youtube_divisiveness ∧
    cEngA.google_score = cEngB.google_score ∧
    cEngA.sources = cEngB.sources ∧
    compositeV2 cEngA ≠ compositeV2 cEngB := by
  refine ⟨rfl, rfl, rfl, rfl, ?_⟩
  unfold compositeV2 engagementScore multiPlatform cEngA cEngB
  rw [show min ((0:ℚ) / 5000) 1 = 0 by rw [min_eq_left] <;> norm_num,
    show min ((5000:ℚ) / 5000) 1 = 1 by rw [min_eq_right]; norm_num]
  intro heq
  simp only at heq
  linarith

/-- Counterexample for C8 as stated: a post with a missing `upvote_ratio` is
scored with the default 0.5, not as if the field were zero. -/
theorem scorer_defaults_counterexample :
    scoreDivisiveness zeroLog ⟨none, some 0, some 0⟩ ≠
      scoreDivisiveness zeroLog ⟨some 0, some 0, some 0⟩ := by
  unfold scoreDivisiveness ratioDivisiveness engagementWeight scoreWeight zeroLog
  simp only [Option.getD_some, Option.getD_none]
  rw [show |(0.5 : ℚ) - 0.5| = 0 by norm_num,
    show |(0 : ℚ) - 0.5| = 0.5 by rw [abs_of_nonpos (by norm_num)]; norm_num]
  norm_num

end Baseline
